import Mathlib

/-!
Verification of the diagnostic-reporting core of `hast-util-from-html`
(`lib/index.js`): severity resolution, the `%c`/`%x` template renderer,
rule-code normalization (`camelcase`), and the diagnostic assembler
(`onerror`).

Strings are modelled as lists of UTF-16 code units (`List Nat`), matching
JavaScript string semantics (`charAt`, `charCodeAt` work on code units, and
source text may contain lone surrogates such as 0xD800, which are not valid
Unicode scalar values).
-/

namespace FromHtml

/-- A JavaScript value as it can appear as a severity configuration setting:
a number, a boolean, a string, `null`, or `undefined` (absent properties
read as `undefined`). Numbers are modelled as integers. -/
inductive JSVal where
  | num : Int → JSVal
  | bool : Bool → JSVal
  | str : List Nat → JSVal
  | null : JSVal
  | undefined : JSVal
deriving DecidableEq, Repr

/-- JavaScript truthiness of a `JSVal`: a number is truthy iff nonzero, a
string iff nonempty, `null` and `undefined` are falsy. -/
def truthy : JSVal → Bool
  | JSVal.num n => n ≠ 0
  | JSVal.bool b => b
  | JSVal.str s => s ≠ []
  | JSVal.null => false
  | JSVal.undefined => false

/-- Severity resolution, from `onerror` in `lib/index.js`:
`const config = setting === undefined || setting === null ? true : setting`
then `const level = typeof config === 'number' ? config : config ? 1 : 0`. -/
def resolveSeverity (setting : JSVal) : Int :=
  let config :=
    if setting = JSVal.undefined ∨ setting = JSVal.null then JSVal.bool true
    else setting
  match config with
  | JSVal.num n => n
  | c => if truthy c then 1 else 0

/-- `fatalities = {2: true, 1: false, 0: null}` from `lib/index.js`; indexing
with any other number yields `undefined` in JavaScript. -/
def fatalities (level : Int) : JSVal :=
  if level = 2 then JSVal.bool true
  else if level = 1 then JSVal.bool false
  else if level = 0 then JSVal.null
  else JSVal.undefined

/-- UTF-16 code units of a Lean string (correct for strings whose characters
are all in the Basic Multilingual Plane, which covers every literal used
here). -/
def utf16 (s : String) : List Nat :=
  s.data.map Char.toNat

/-- `camelcase` from `lib/index.js`: a global replace of the regex
"hyphen followed by a lowercase ASCII letter" by that letter upper-cased
(`$0.charAt(1).toUpperCase()`); scanning is left to right and
non-overlapping. -/
def camelcase : List Nat → List Nat
  | [] => []
  | c :: rest =>
    if c = 45 then
      match rest with
      | [] => [45]
      | c2 :: rest2 =>
        if 97 ≤ c2 ∧ c2 ≤ 122 then (c2 - 32) :: camelcase rest2
        else 45 :: camelcase (c2 :: rest2)
    else c :: camelcase rest

/-- The inverse transformation used by the repository's documentation
script: `key.replace(/[A-Z]/g, ($0) => '-' + $0.toLowerCase())`. -/
def kebab : List Nat → List Nat
  | [] => []
  | c :: rest =>
    if 65 ≤ c ∧ c ≤ 90 then 45 :: (c + 32) :: kebab rest
    else c :: kebab rest

/-- `c` is a lowercase ASCII letter. -/
def isLower (c : Nat) : Bool :=
  97 ≤ c && c ≤ 122

/-- Tail of a hyphen-case code after its first character: lowercase letters,
where every hyphen is followed by a lowercase letter (so no trailing hyphen
and no adjacent hyphens). -/
def hyphTail : List Nat → Bool
  | [] => true
  | c :: rest =>
    if c = 45 then
      match rest with
      | [] => false
      | c2 :: rest2 => isLower c2 && hyphTail rest2
    else isLower c && hyphTail rest

/-- A hyphen-case rule code: nonempty, starts with a lowercase ASCII letter,
consists of lowercase words separated by single hyphens. -/
def isHyphenCase : List Nat → Bool
  | [] => false
  | c :: rest => isLower c && hyphTail rest

/-- Upper-casing of an ASCII code unit (JavaScript `toUpperCase` restricted
to ASCII). -/
def toUpperNat (c : Nat) : Nat :=
  if 97 ≤ c ∧ c ≤ 122 then c - 32 else c

/-- Modelled from the spec: the Identifier Normalizer described in §4.1,
"output the catalog key, formed by removing each hyphen and upper-casing the
character immediately following it". -/
def specNormalize : List Nat → List Nat
  | [] => []
  | c :: rest =>
    if c = 45 then
      match rest with
      | [] => []
      | c2 :: rest2 => toUpperNat c2 :: specNormalize rest2
    else c :: specNormalize rest

/-- JavaScript `doc.charAt(i)` on a code-unit list: a one-element list for an
in-range index, the empty string for a negative or out-of-range index. -/
def charAt (doc : List Nat) (i : Int) : List Nat :=
  if 0 ≤ i then (doc.drop i.toNat).take 1 else []

/-- `c` is an ASCII decimal digit. -/
def isDigit (c : Nat) : Bool :=
  48 ≤ c && c ≤ 57

/-- `Number.parseInt` on a run of decimal digit code units. -/
def digitsVal (l : List Nat) : Nat :=
  l.foldl (fun a c => a * 10 + (c - 48)) 0

/-- The replacement text for one `%c` placeholder, from `format` in
`lib/index.js`: the character of the source at `startOffset + offset`,
except that a backtick becomes the three-token escape sequence. -/
def csub (doc : List Nat) (so : Nat) (off : Int) : List Nat :=
  let char := charAt doc ((so : Int) + off)
  if char = [96] then utf16 "` ` `" else char

/-- Dropping a prefix never lengthens a list (used for termination of the
placeholder scanner). -/
theorem dropWhileLenLe {α : Type} (p : α → Bool) (l : List α) :
    (l.dropWhile p).length ≤ l.length := by
  induction l with
  | nil => simp [List.dropWhile]
  | cons a t ih =>
    simp only [List.dropWhile]
    split
    · exact Nat.le_succ_of_le ih
    · exact Nat.le_refl _

/-- First replacement pass of `format` in `lib/index.js`: the global regex
`%c` optionally followed by a sign and a nonempty digit run, each match
replaced via `csub` with the signed offset (0 when sign and digits are
absent). -/
def formatC (doc : List Nat) (so : Nat) : List Nat → List Nat
  | [] => []
  | c :: rest =>
    if c = 37 then
      match rest with
      | [] => [37]
      | c2 :: rest2 =>
        if c2 = 99 then
          match rest2 with
          | [] => csub doc so 0
          | s :: rest3 =>
            if (s = 45 ∨ s = 43) ∧ rest3.takeWhile isDigit ≠ [] then
              csub doc so
                  ((digitsVal (rest3.takeWhile isDigit) : Int) *
                    (if s = 45 then -1 else 1)) ++
                formatC doc so (rest3.dropWhile isDigit)
            else csub doc so 0 ++ formatC doc so (s :: rest3)
        else 37 :: formatC doc so (c2 :: rest2)
    else c :: formatC doc so rest
termination_by l => l.length
decreasing_by
  all_goals simp_wf
  all_goals have h := dropWhileLenLe isDigit rest2
  all_goals omega

/-- One upper-case hexadecimal digit. -/
def hexDigit (n : Nat) : Nat :=
  if n < 10 then 48 + n else 55 + n

/-- Accumulator loop behind `hexUpper`; the fuel argument strictly bounds
the number of digits, so it never runs out when `hexUpper` supplies
`n + 1`. -/
def hexUpperAux : Nat → Nat → List Nat → List Nat
  | 0, _, acc => acc
  | fuel + 1, n, acc =>
    if n < 16 then hexDigit n :: acc
    else hexUpperAux fuel (n / 16) (hexDigit (n % 16) :: acc)

/-- JavaScript `n.toString(16).toUpperCase()` for a nonnegative integer:
upper-case hexadecimal digits, no leading zeros, `"0"` for zero. -/
def hexUpper (n : Nat) : List Nat :=
  hexUpperAux (n + 1) n []

/-- The replacement text for one `%x` placeholder, from `format` in
`lib/index.js`: `'0x' + doc.charCodeAt(startOffset).toString(16).toUpperCase()`;
an out-of-range offset makes `charCodeAt` return `NaN`, which prints as
`"NAN"`. -/
def xsub (doc : List Nat) (so : Nat) : List Nat :=
  utf16 "0x" ++
    match doc.get? so with
    | some u => hexUpper u
    | none => utf16 "NaN".toUpper

/-- Second replacement pass of `format` in `lib/index.js`: every `%x`
replaced by `xsub`. -/
def formatX (doc : List Nat) (so : Nat) : List Nat → List Nat
  | [] => []
  | c :: rest =>
    if c = 37 then
      match rest with
      | [] => [37]
      | c2 :: rest2 =>
        if c2 = 120 then xsub doc so ++ formatX doc so rest2
        else 37 :: formatX doc so (c2 :: rest2)
    else c :: formatX doc so rest

/-- `format` in `lib/index.js`: the `%c` pass followed by the `%x` pass. -/
def format (doc : List Nat) (so : Nat) (value : List Nat) : List Nat :=
  formatX doc so (formatC doc so value)

/-- The text contains a `%c` occurrence (a position where the `%c` regex
matches). -/
def hasPC : List Nat → Bool
  | [] => false
  | c :: rest => if c = 37 ∧ rest.head? = some 99 then true else hasPC rest

/-- The text contains a `%x` occurrence. -/
def hasPX : List Nat → Bool
  | [] => false
  | c :: rest => if c = 37 ∧ rest.head? = some 120 then true else hasPX rest

/-- The text begins with a sign (`+`/`-`) immediately followed by a decimal
digit — the shapes that extend a preceding `%c` match. -/
def signDigit : List Nat → Bool
  | s :: d :: _ => if (s = 45 ∨ s = 43) ∧ isDigit d = true then true else false
  | _ => false

/-- A raw parse-error event as delivered by `parse5` (`Error` typedef in
`lib/index.js`). -/
structure RawError where
  code : List Nat
  startLine : Nat
  startCol : Nat
  startOffset : Nat
  endLine : Nat
  endCol : Nat
  endOffset : Nat
deriving DecidableEq, Repr

/-- A catalog entry of `lib/errors.js`: reason template, description
template, and the optional `url` field (`none` when the field is absent;
entries that suppress their URL carry `some (JSVal.bool false)`). -/
structure RuleInfo where
  reason : List Nat
  description : List Nat
  url : Option JSVal
deriving DecidableEq, Repr

/-- The fallback entry used on a catalog miss in `onerror`:
`{reason: '', description: '', url: ''}`. -/
def fallbackInfo : RuleInfo :=
  { reason := [], description := [], url := some (JSVal.str []) }

/-- A point of a positional range. -/
structure Point where
  line : Nat
  column : Nat
  offset : Nat
deriving DecidableEq, Repr

/-- The fields of the `VFileMessage` diagnostic that `onerror` assembles. -/
structure Message where
  message : List Nat
  reason : List Nat
  line : Nat
  column : Nat
  source : List Nat
  ruleId : List Nat
  posStart : Point
  posEnd : Point
  fatal : JSVal
  note : List Nat
  url : Option (List Nat)
deriving DecidableEq, Repr

/-- `base` in `lib/index.js`: the documentation link base. -/
def base : List Nat :=
  utf16 "https://html.spec.whatwg.org/multipage/parsing.html#parse-error-"

/-- `onerror` in `lib/index.js`, as a function from the per-rule options
(looked up by normalized identifier; an absent property reads as
`undefined`), the catalog, the source text, and the raw event to the
diagnostic handed to the sink — `none` when severity resolves to 0 and the
sink is not invoked, `some m` when the sink is invoked exactly once
with `m`. -/
def onerror (options : List Nat → JSVal) (errors : List Nat → Option RuleInfo)
    (doc : List Nat) (error : RawError) : Option Message :=
  let code := error.code
  let name := camelcase code
  let level := resolveSeverity (options name)
  if level ≠ 0 then
    let info := (errors name).getD fallbackInfo
    let reason := format doc error.startOffset info.reason
    some
      { message := reason
        reason := reason
        line := error.startLine
        column := error.startCol
        source := utf16 "parse-error"
        ruleId := code
        posStart :=
          { line := error.startLine, column := error.startCol,
            offset := error.startOffset }
        posEnd :=
          { line := error.endLine, column := error.endCol,
            offset := error.endOffset }
        fatal := fatalities level
        note := format doc error.startOffset info.description
        url :=
          if info.url = some (JSVal.bool false) then none
          else some (base ++ code) }
  else none

/-- Witness fixture: options with no override (every property reads as
`undefined`). -/
def wOpts : List Nat → JSVal := fun _ => JSVal.undefined

/-- Witness fixture: options turning every rule off with `false`. -/
def wOptsOff : List Nat → JSVal := fun _ => JSVal.bool false

/-- Witness fixture: an empty catalog (every lookup misses). -/
def wErrs : List Nat → Option RuleInfo := fun _ => none

/-- Witness fixture: a catalog whose entries suppress their URL. -/
def wErrsSup : List Nat → Option RuleInfo :=
  fun _ => some { reason := [], description := [], url := some (JSVal.bool false) }

/-- Witness fixture: a raw event with code `"a"` spanning offsets 0–1. -/
def wErr : RawError :=
  { code := [97], startLine := 1, startCol := 1, startOffset := 0,
    endLine := 1, endCol := 1, endOffset := 1 }

/-- Witness fixture: the diagnostic `onerror wOpts wErrs [] wErr` emits. -/
def wMsg : Message :=
  { message := [], reason := [], line := 1, column := 1,
    source := utf16 "parse-error", ruleId := [97],
    posStart := { line := 1, column := 1, offset := 0 },
    posEnd := { line := 1, column := 1, offset := 1 },
    fatal := JSVal.bool false, note := [], url := some (base ++ [97]) }

/-- Witness fixture: the diagnostic `onerror wOpts wErrsSup [] wErr` emits
(URL suppressed). -/
def wMsgSup : Message :=
  { message := [], reason := [], line := 1, column := 1,
    source := utf16 "parse-error", ruleId := [97],
    posStart := { line := 1, column := 1, offset := 0 },
    posEnd := { line := 1, column := 1, offset := 1 },
    fatal := JSVal.bool false, note := [], url := none }

/-- C1: severity resolution follows the default-then-coerce algorithm —
absent (`undefined`) or `null` resolves to 1; a number passes through
unchanged; a truthy non-number resolves to 1; a falsy non-number (other
than the `null`/`undefined` already claimed by the default stage) resolves
to 0. -/
theorem severity_default_then_coerce (v : JSVal) :
    ((v = JSVal.undefined ∨ v = JSVal.null) → resolveSeverity v = 1) ∧
    (∀ n : Int, v = JSVal.num n → resolveSeverity v = n) ∧
    ((truthy v = true ∧ ∀ n : Int, v ≠ JSVal.num n) → resolveSeverity v = 1) ∧
    ((truthy v = false ∧ (∀ n : Int, v ≠ JSVal.num n) ∧
        v ≠ JSVal.null ∧ v ≠ JSVal.undefined) →
      resolveSeverity v = 0) := by
  cases v with
  | num n =>
    refine ⟨by simp, fun k hk => ?_, fun h => absurd rfl (h.2 n), fun h => absurd rfl (h.2.1 n)⟩
    cases hk
    simp [resolveSeverity]
  | bool b =>
    cases b <;> simp [resolveSeverity, truthy]
  | str s =>
    by_cases hs : s = [] <;> simp [resolveSeverity, truthy, hs]
  | null => simp [resolveSeverity, truthy]
  | undefined => simp [resolveSeverity, truthy]

/-- Witness for C1 at the concrete input `null`. -/
theorem severity_default_then_coerce_w : resolveSeverity JSVal.null = 1 :=
  (severity_default_then_coerce JSVal.null).1 (Or.inr rfl)

/-- C4, counterexample: the caller-supplied configuration value `3` is
coerced to severity `3`, which is outside `{0, 1, 2}` — numeric values pass
through the resolver unchanged. -/
theorem severity_range_counterexample :
    resolveSeverity (JSVal.num 3) = 3 ∧
    ¬(resolveSeverity (JSVal.num 3) = 0 ∨ resolveSeverity (JSVal.num 3) = 1 ∨
        resolveSeverity (JSVal.num 3) = 2) := by
  decide

/-- C4, amended: for every configuration value that is not a number outside
`{0, 1, 2}` (non-numbers, however malformed, are coerced to 0 or 1), the
resolver's output is in `{0, 1, 2}`. -/
theorem severity_range_of_documented (v : JSVal)
    (h : ∀ n : Int, v = JSVal.num n → n = 0 ∨ n = 1 ∨ n = 2) :
    resolveSeverity v = 0 ∨ resolveSeverity v = 1 ∨ resolveSeverity v = 2 := by
  cases v with
  | num n =>
    have := h n rfl
    simpa [resolveSeverity] using this
  | bool b => cases b <;> simp [resolveSeverity, truthy]
  | str s =>
    by_cases hs : s = [] <;> simp [resolveSeverity, truthy, hs]
  | null => simp [resolveSeverity, truthy]
  | undefined => simp [resolveSeverity, truthy]

/-- Witness for the amended C4 at the concrete input `true`. -/
theorem severity_range_of_documented_w :
    resolveSeverity (JSVal.bool true) = 0 ∨ resolveSeverity (JSVal.bool true) = 1 ∨
      resolveSeverity (JSVal.bool true) = 2 :=
  severity_range_of_documented (JSVal.bool true) (fun _ h => nomatch h)

/-- C2: when severity resolves to 0 the sink is not invoked (no diagnostic);
when it resolves to nonzero the sink is invoked exactly once with the
assembled diagnostic; in particular an override of `false` or `0` means the
sink is never invoked for that rule. -/
theorem sink_iff_nonzero_severity (opts : List Nat → JSVal)
    (errs : List Nat → Option RuleInfo) (doc : List Nat) (e : RawError) :
    (resolveSeverity (opts (camelcase e.code)) = 0 →
      onerror opts errs doc e = none) ∧
    (resolveSeverity (opts (camelcase e.code)) ≠ 0 →
      ∃ m, onerror opts errs doc e = some m) ∧
    (∀ v, (v = JSVal.bool false ∨ v = JSVal.num 0) →
      opts (camelcase e.code) = v → onerror opts errs doc e = none) := by
  refine ⟨fun h0 => ?_, fun hn => ?_, fun v hv hset => ?_⟩
  · simp [onerror, h0]
  · have h : onerror opts errs doc e ≠ none := by simp [onerror, hn]
    exact Option.ne_none_iff_exists'.mp h
  · have h0 : resolveSeverity (opts (camelcase e.code)) = 0 := by
      rcases hv with h | h <;> rw [hset, h] <;> rfl
    simp [onerror, h0]

/-- Witness for C2: with the override `false` on every rule, the event
produces no diagnostic. -/
theorem sink_iff_nonzero_severity_w : onerror wOptsOff wErrs [] wErr = none :=
  (sink_iff_nonzero_severity wOptsOff wErrs [] wErr).2.2 (JSVal.bool false)
    (Or.inl rfl) rfl

/-- C3: on every emitted diagnostic the `fatal` field is `true` iff the
resolved severity is 2, `false` iff it is 1, and is never `null`. -/
theorem fatal_iff_severity (opts : List Nat → JSVal)
    (errs : List Nat → Option RuleInfo) (doc : List Nat) (e : RawError)
    (m : Message) (h : onerror opts errs doc e = some m) :
    (m.fatal = JSVal.bool true ↔ resolveSeverity (opts (camelcase e.code)) = 2) ∧
    (m.fatal = JSVal.bool false ↔ resolveSeverity (opts (camelcase e.code)) = 1) ∧
    m.fatal ≠ JSVal.null := by
  simp only [onerror] at h
  split at h
  case isFalse => exact absurd h (by simp)
  case isTrue hn =>
    have hm := (Option.some.inj h).symm
    subst hm
    simp only []
    by_cases h2 : resolveSeverity (opts (camelcase e.code)) = 2
    · simp [fatalities, h2]
    · by_cases h1 : resolveSeverity (opts (camelcase e.code)) = 1
      · simp [fatalities, h1, h2]
      · simp [fatalities, h1, h2, hn]

/-- Witness for C3 at a concrete emitted diagnostic (default severity 1,
`fatal` is `false`). -/
theorem fatal_iff_severity_w :
    (onerror wOpts wErrs [] wErr = some wMsg) ∧
    ((wMsg.fatal = JSVal.bool true ↔
        resolveSeverity (wOpts (camelcase wErr.code)) = 2) ∧
     (wMsg.fatal = JSVal.bool false ↔
        resolveSeverity (wOpts (camelcase wErr.code)) = 1) ∧
     wMsg.fatal ≠ JSVal.null) :=
  ⟨by
    simp [onerror, wOpts, wErrs, wErr, wMsg, resolveSeverity, fallbackInfo,
      format, formatC, formatX, fatalities, base, truthy, camelcase],
   fatal_iff_severity wOpts wErrs [] wErr wMsg
    (by
      simp [onerror, wOpts, wErrs, wErr, wMsg, resolveSeverity, fallbackInfo,
        format, formatC, formatX, fatalities, base, truthy, camelcase])⟩

/-- C7: an emitted diagnostic's `url` is `null` exactly when the matching
catalog entry (or the fallback on a miss) has its `url` field equal to
`false`; otherwise it is the documentation base followed by the original
hyphen-case code — never the normalized camel-case identifier. -/
theorem url_suppression (opts : List Nat → JSVal)
    (errs : List Nat → Option RuleInfo) (doc : List Nat) (e : RawError)
    (m : Message) (h : onerror opts errs doc e = some m) :
    (m.url = none ↔
      ((errs (camelcase e.code)).getD fallbackInfo).url = some (JSVal.bool false)) ∧
    (((errs (camelcase e.code)).getD fallbackInfo).url ≠ some (JSVal.bool false) →
      m.url = some (base ++ e.code)) ∧
    (camelcase e.code ≠ e.code → m.url ≠ some (base ++ camelcase e.code)) := by
  simp only [onerror] at h
  split at h
  case isFalse => exact absurd h (by simp)
  case isTrue hn =>
    have hm := (Option.some.inj h).symm
    subst hm
    by_cases hs :
        ((errs (camelcase e.code)).getD fallbackInfo).url = some (JSVal.bool false)
    · simp [hs]
    · refine ⟨by simp [hs], fun _ => by simp [hs], fun hne => ?_⟩
      simp only [hs, if_false]
      intro hcontra
      have := Option.some.inj hcontra
      exact hne (List.append_cancel_left this).symm

/-- Witness for C7 at a concrete catalog whose entry suppresses its URL. -/
theorem url_suppression_w :
    (onerror wOpts wErrsSup [] wErr = some wMsgSup) ∧
    ((wMsgSup.url = none ↔
        ((wErrsSup (camelcase wErr.code)).getD fallbackInfo).url =
          some (JSVal.bool false)) ∧
     (((wErrsSup (camelcase wErr.code)).getD fallbackInfo).url ≠
          some (JSVal.bool false) →
        wMsgSup.url = some (base ++ wErr.code)) ∧
     (camelcase wErr.code ≠ wErr.code →
        wMsgSup.url ≠ some (base ++ camelcase wErr.code))) :=
  ⟨by
    simp [onerror, wOpts, wErrsSup, wErr, wMsgSup, resolveSeverity, fallbackInfo,
      format, formatC, formatX, fatalities, base, truthy, camelcase],
   url_suppression wOpts wErrsSup [] wErr wMsgSup
    (by
      simp [onerror, wOpts, wErrsSup, wErr, wMsgSup, resolveSeverity, fallbackInfo,
        format, formatC, formatX, fatalities, base, truthy, camelcase])⟩

/-- C9: on a catalog miss with nonzero severity, processing degrades to the
fallback entry — the diagnostic is emitted normally with empty `message`,
`reason`, and `note` strings (the empty templates render to the empty
string). -/
theorem catalog_miss_empty (opts : List Nat → JSVal)
    (errs : List Nat → Option RuleInfo) (doc : List Nat) (e : RawError)
    (hmiss : errs (camelcase e.code) = none)
    (hlev : resolveSeverity (opts (camelcase e.code)) ≠ 0) :
    onerror opts errs doc e =
      some
        { message := [], reason := [], line := e.startLine, column := e.startCol,
          source := utf16 "parse-error", ruleId := e.code,
          posStart :=
            { line := e.startLine, column := e.startCol, offset := e.startOffset },
          posEnd := { line := e.endLine, column := e.endCol, offset := e.endOffset },
          fatal := fatalities (resolveSeverity (opts (camelcase e.code))),
          note := [], url := some (base ++ e.code) } := by
  simp [onerror, hlev, hmiss, fallbackInfo, format, formatC, formatX]

/-- Witness for C9 at a concrete catalog miss. -/
theorem catalog_miss_empty_w :
    onerror wOpts wErrs [] wErr =
      some
        { message := [], reason := [], line := wErr.startLine,
          column := wErr.startCol,
          source := utf16 "parse-error", ruleId := wErr.code,
          posStart :=
            { line := wErr.startLine, column := wErr.startCol,
              offset := wErr.startOffset },
          posEnd :=
            { line := wErr.endLine, column := wErr.endCol,
              offset := wErr.endOffset },
          fatal := fatalities (resolveSeverity (wOpts (camelcase wErr.code))),
          note := [], url := some (base ++ wErr.code) } :=
  catalog_miss_empty wOpts wErrs [] wErr rfl (by decide)

/-- C10: on a catalog miss the fallback entry's `url` field is the empty
string, not `false`, so the URL-suppression test never matches: every
diagnostic emitted for an unknown code carries the non-null URL
base ++ original code. -/
theorem catalog_miss_url (opts : List Nat → JSVal)
    (errs : List Nat → Option RuleInfo) (doc : List Nat) (e : RawError)
    (m : Message) (hmiss : errs (camelcase e.code) = none)
    (h : onerror opts errs doc e = some m) :
    m.url = some (base ++ e.code) ∧ m.url ≠ none := by
  simp only [onerror] at h
  split at h
  case isFalse => exact absurd h (by simp)
  case isTrue hn =>
    have hm := (Option.some.inj h).symm
    subst hm
    simp [hmiss, fallbackInfo]

/-- Witness for C10 at a concrete catalog miss. -/
theorem catalog_miss_url_w :
    wMsg.url = some (base ++ wErr.code) ∧ wMsg.url ≠ none :=
  catalog_miss_url wOpts wErrs [] wErr wMsg rfl
    (by
      simp [onerror, wOpts, wErrs, wErr, wMsg, resolveSeverity, fallbackInfo,
        format, formatC, formatX, fatalities, base, truthy, camelcase])

/-- Unfolding of `camelcase` on a nonempty list. -/
theorem camelcase_cons (c : Nat) (rest : List Nat) :
    camelcase (c :: rest) =
      if c = 45 then
        (match rest with
         | [] => [45]
         | c2 :: rest2 =>
           if 97 ≤ c2 ∧ c2 ≤ 122 then (c2 - 32) :: camelcase rest2
           else 45 :: camelcase (c2 :: rest2))
      else c :: camelcase rest := by
  rw [camelcase.eq_def]

/-- Unfolding of `hyphTail` on a nonempty list. -/
theorem hyphTail_cons (c : Nat) (rest : List Nat) :
    hyphTail (c :: rest) =
      if c = 45 then
        (match rest with
         | [] => false
         | c2 :: rest2 => isLower c2 && hyphTail rest2)
      else isLower c && hyphTail rest := by
  rw [hyphTail.eq_def]

/-- Unfolding of `specNormalize` on a nonempty list. -/
theorem specNormalize_cons (c : Nat) (rest : List Nat) :
    specNormalize (c :: rest) =
      if c = 45 then
        (match rest with
         | [] => []
         | c2 :: rest2 => toUpperNat c2 :: specNormalize rest2)
      else c :: specNormalize rest := by
  rw [specNormalize.eq_def]

/-- Unfolding of `kebab` on a nonempty list. -/
theorem kebab_cons (c : Nat) (rest : List Nat) :
    kebab (c :: rest) =
      if 65 ≤ c ∧ c ≤ 90 then 45 :: (c + 32) :: kebab rest
      else c :: kebab rest := rfl

/-- Numeric bounds of a lowercase ASCII code unit. -/
theorem isLower_bounds {c : Nat} (h : isLower c = true) : 97 ≤ c ∧ c ≤ 122 := by
  simp [isLower] at h
  omega

/-- `kebab` inverts `camelcase` on valid hyphen-case tails. -/
theorem hyphTail_roundtrip : ∀ (n : Nat) (l : List Nat), l.length ≤ n →
    hyphTail l = true → kebab (camelcase l) = l := by
  intro n
  induction n with
  | zero =>
    intro l hl _
    have : l = [] := List.eq_nil_of_length_eq_zero (Nat.le_zero.mp hl)
    subst this
    rfl
  | succ n ih =>
    intro l hl hv
    cases l with
    | nil => rfl
    | cons c rest =>
      by_cases hc : c = 45
      · subst hc
        cases rest with
        | nil => rw [hyphTail_cons, if_pos rfl] at hv; exact absurd hv (by simp)
        | cons c2 rest2 =>
          rw [hyphTail_cons, if_pos rfl] at hv
          have h2 := (Bool.and_eq_true _ _).mp hv
          have hlow := isLower_bounds h2.1
          rw [camelcase_cons, if_pos rfl]
          simp only [if_pos hlow]
          rw [kebab_cons, if_pos (by omega : 65 ≤ c2 - 32 ∧ c2 - 32 ≤ 90)]
          have hc2 : c2 - 32 + 32 = c2 := by omega
          rw [hc2, ih rest2 (by simp at hl; omega) h2.2]
      · rw [hyphTail_cons, if_neg hc] at hv
        have h2 := (Bool.and_eq_true _ _).mp hv
        have hlow := isLower_bounds h2.1
        rw [camelcase_cons, if_neg hc, kebab_cons, if_neg (by omega)]
        rw [ih rest (by simp at hl; omega) h2.2]

/-- On valid hyphen-case tails, `camelcase` agrees with the spec's
description of the Identifier Normalizer. -/
theorem hyphTail_spec : ∀ (n : Nat) (l : List Nat), l.length ≤ n →
    hyphTail l = true → camelcase l = specNormalize l := by
  intro n
  induction n with
  | zero =>
    intro l hl _
    have : l = [] := List.eq_nil_of_length_eq_zero (Nat.le_zero.mp hl)
    subst this
    rfl
  | succ n ih =>
    intro l hl hv
    cases l with
    | nil => rfl
    | cons c rest =>
      by_cases hc : c = 45
      · subst hc
        cases rest with
        | nil => rw [hyphTail_cons, if_pos rfl] at hv; exact absurd hv (by simp)
        | cons c2 rest2 =>
          rw [hyphTail_cons, if_pos rfl] at hv
          have h2 := (Bool.and_eq_true _ _).mp hv
          have hlow := isLower_bounds h2.1
          rw [camelcase_cons, if_pos rfl, specNormalize_cons, if_pos rfl]
          simp only [if_pos hlow, toUpperNat]
          rw [ih rest2 (by simp at hl; omega) h2.2]
      · rw [hyphTail_cons, if_neg hc] at hv
        have h2 := (Bool.and_eq_true _ _).mp hv
        rw [camelcase_cons, if_neg hc, specNormalize_cons, if_neg hc]
        rw [ih rest (by simp at hl; omega) h2.2]

/-- `kebab` inverts `camelcase` on every hyphen-case code. -/
theorem camelcase_roundtrip (l : List Nat) (h : isHyphenCase l = true) :
    kebab (camelcase l) = l := by
  cases l with
  | nil => exact absurd h (by simp [isHyphenCase])
  | cons c rest =>
    have h2 := (Bool.and_eq_true _ _).mp (by simpa [isHyphenCase] using h)
    have hlow := isLower_bounds h2.1
    rw [camelcase_cons, if_neg (by omega : c ≠ 45), kebab_cons, if_neg (by omega)]
    rw [hyphTail_roundtrip rest.length rest (Nat.le_refl _) h2.2]

/-- C8: on every hyphen-case rule code, `camelcase` removes each hyphen and
upper-cases the character immediately following it (it agrees with the
spec-modelled `specNormalize`), and distinct hyphen-case codes never
normalize to the same key. -/
theorem camelcase_normalizes (c1 c2 : List Nat) :
    (isHyphenCase c1 = true → camelcase c1 = specNormalize c1) ∧
    (isHyphenCase c1 = true → isHyphenCase c2 = true →
      camelcase c1 = camelcase c2 → c1 = c2) := by
  constructor
  · intro h
    cases c1 with
    | nil => rfl
    | cons c rest =>
      have h2 := (Bool.and_eq_true _ _).mp (by simpa [isHyphenCase] using h)
      have hlow := isLower_bounds h2.1
      rw [camelcase_cons, if_neg (by omega : c ≠ 45), specNormalize_cons,
        if_neg (by omega : c ≠ 45)]
      rw [hyphTail_spec rest.length rest (Nat.le_refl _) h2.2]
  · intro h1 h2 heq
    have r1 := camelcase_roundtrip c1 h1
    have r2 := camelcase_roundtrip c2 h2
    rw [← r1, ← r2, heq]

/-- Witness for C8 at the concrete code `"end-tag-with-trailing-solidus"`. -/
theorem camelcase_normalizes_w :
    isHyphenCase (utf16 "end-tag-with-trailing-solidus") = true ∧
    camelcase (utf16 "end-tag-with-trailing-solidus") =
      specNormalize (utf16 "end-tag-with-trailing-solidus") ∧
    camelcase (utf16 "end-tag-with-trailing-solidus") =
      utf16 "endTagWithTrailingSolidus" :=
  ⟨by decide, (camelcase_normalizes _ []).1 (by decide), by decide⟩

/-- `formatX` on the empty template. -/
theorem formatX_nil (doc : List Nat) (so : Nat) : formatX doc so [] = [] := rfl

/-- `formatX` passes a character through when no `%x` match starts there. -/
theorem formatX_cons_no (doc : List Nat) (so : Nat) (c : Nat) (rest : List Nat)
    (h : ¬(c = 37 ∧ rest.head? = some 120)) :
    formatX doc so (c :: rest) = c :: formatX doc so rest := by
  by_cases hc : c = 37
  · subst hc
    cases rest with
    | nil => rfl
    | cons c2 rest2 =>
      have h2 : c2 ≠ 120 := by
        intro hx
        exact h ⟨rfl, by simp [hx]⟩
      rw [formatX.eq_def]
      simp [h2]
  · rw [formatX.eq_def]
    simp [hc]

/-- `formatX` consumes a `%x` match and substitutes `xsub`. -/
theorem formatX_step (doc : List Nat) (so : Nat) (post : List Nat) :
    formatX doc so (37 :: 120 :: post) = xsub doc so ++ formatX doc so post := by
  rw [formatX.eq_def]
  simp

/-- Unfolding of `hasPX` on a nonempty list. -/
theorem hasPX_cons (c : Nat) (rest : List Nat) :
    hasPX (c :: rest) =
      if c = 37 ∧ rest.head? = some 120 then true else hasPX rest := by
  rw [hasPX.eq_def]

/-- Text without a `%x` occurrence passes through `formatX` unchanged. -/
theorem formatX_id (doc : List Nat) (so : Nat) :
    ∀ t, hasPX t = false → formatX doc so t = t := by
  intro t
  induction t with
  | nil => intro _; rfl
  | cons c rest ih =>
    intro h
    rw [hasPX_cons] at h
    split at h
    · exact absurd h (by simp)
    · next hno =>
      rw [formatX_cons_no doc so c rest hno, ih h]

/-- `formatX` commutes with prepending match-free text when the remainder
starts with `%`. -/
theorem formatX_prepend (doc : List Nat) (so : Nat) (rest : List Nat)
    (hr : rest.head? = some 37) :
    ∀ pre, hasPX pre = false →
      formatX doc so (pre ++ rest) = pre ++ formatX doc so rest := by
  intro pre
  induction pre with
  | nil => intro _; rfl
  | cons c pre2 ih =>
    intro h
    rw [hasPX_cons] at h
    split at h
    · exact absurd h (by simp)
    · next hno =>
      have hcond : ¬(c = 37 ∧ (pre2 ++ rest).head? = some 120) := by
        cases pre2 with
        | nil =>
          simp only [List.nil_append]
          intro hcontra
          rw [hr] at hcontra
          exact absurd hcontra.2 (by simp)
        | cons p pre3 =>
          intro hcontra
          exact hno ⟨hcontra.1, by simpa using hcontra.2⟩
      rw [List.cons_append, formatX_cons_no doc so c (pre2 ++ rest) hcond, ih h]
      simp

/-- C6: every `%x` placeholder is replaced by `'0x'` followed by the
upper-cased hexadecimal code unit value of the source character at
`startOffset`; text without a placeholder passes through unchanged; the NUL
character yields `0x0` and the lone surrogate 0xD800 yields `0xD800`. -/
theorem formatX_placeholder (doc : List Nat) (so : Nat) (t pre post : List Nat)
    (u : Nat) :
    (hasPX t = false → formatX doc so t = t) ∧
    (hasPX pre = false → doc.get? so = some u →
      formatX doc so (pre ++ 37 :: 120 :: post) =
        pre ++ (utf16 "0x" ++ hexUpper u) ++ formatX doc so post) ∧
    (hexUpper 0 = utf16 "0" ∧ hexUpper 55296 = utf16 "D800") := by
  refine ⟨formatX_id doc so t, fun hpre hu => ?_, by decide, by decide⟩
  rw [formatX_prepend doc so (37 :: 120 :: post) rfl pre hpre, formatX_step]
  rw [xsub, hu]
  simp [List.append_assoc]

/-- Witness for C6: a `%x` template against the one-character source
`[NUL]`. -/
theorem formatX_placeholder_w :
    hasPX [] = false ∧ ([0] : List Nat).get? 0 = some 0 ∧
    formatX [0] 0 ([] ++ 37 :: 120 :: []) =
      [] ++ (utf16 "0x" ++ hexUpper 0) ++ formatX [0] 0 [] :=
  ⟨rfl, rfl, (formatX_placeholder [0] 0 [] [] [] 0).2.1 rfl rfl⟩

/-- `formatC` passes a character through when no `%c` match starts there. -/
theorem formatC_cons_no (doc : List Nat) (so : Nat) (c : Nat) (rest : List Nat)
    (h : ¬(c = 37 ∧ rest.head? = some 99)) :
    formatC doc so (c :: rest) = c :: formatC doc so rest := by
  by_cases hc : c = 37
  · subst hc
    cases rest with
    | nil => rw [formatC.eq_2, if_pos rfl, formatC.eq_1]
    | cons c2 rest2 =>
      have h2 : c2 ≠ 99 := by
        intro hx
        exact h ⟨rfl, by simp [hx]⟩
      cases rest2 with
      | nil => rw [formatC.eq_3, if_pos rfl, if_neg h2]
      | cons c3 rest3 => rw [formatC.eq_4, if_pos rfl, if_neg h2]
  · cases rest with
    | nil => rw [formatC.eq_2, if_neg hc]
    | cons c2 rest2 =>
      cases rest2 with
      | nil => rw [formatC.eq_3, if_neg hc]
      | cons c3 rest3 => rw [formatC.eq_4, if_neg hc]

/-- `formatC` on a bare `%c` match (not followed by sign-and-digit)
substitutes the character at offset 0. -/
theorem formatC_bare (doc : List Nat) (so : Nat) (post : List Nat)
    (hpost : signDigit post = false) :
    formatC doc so (37 :: 99 :: post) = csub doc so 0 ++ formatC doc so post := by
  cases post with
  | nil => rw [formatC.eq_3, if_pos rfl, if_pos rfl, formatC.eq_1, List.append_nil]
  | cons s rest3 =>
    have hcond : ¬((s = 45 ∨ s = 43) ∧ rest3.takeWhile isDigit ≠ []) := by
      intro hand
      obtain ⟨hs, htw⟩ := hand
      cases rest3 with
      | nil => exact htw rfl
      | cons d rest4 =>
        by_cases hd : isDigit d = true
        · rw [signDigit.eq_def] at hpost
          simp only [if_pos (And.intro hs hd)] at hpost
          exact absurd hpost (by simp)
        · apply htw
          rw [List.takeWhile]
          simp [hd]
    rw [formatC.eq_4, if_pos rfl, if_pos rfl, if_neg hcond]

/-- Splitting `takeWhile`/`dropWhile` around an append whose left part
satisfies the predicate and whose right part starts failing it. -/
theorem takeWhile_append_all {p : Nat → Bool} : ∀ (l1 l2 : List Nat),
    (∀ c ∈ l1, p c = true) → (∀ d, l2.head? = some d → p d = false) →
    (l1 ++ l2).takeWhile p = l1 ∧ (l1 ++ l2).dropWhile p = l2 := by
  intro l1
  induction l1 with
  | nil =>
    intro l2 _ h2
    cases l2 with
    | nil => exact ⟨rfl, rfl⟩
    | cons d l3 =>
      have hd := h2 d rfl
      constructor
      · rw [List.nil_append, List.takeWhile]
        simp [hd]
      · rw [List.nil_append, List.dropWhile]
        simp [hd]
  | cons c l1x ih =>
    intro l2 h1 h2
    have hc := h1 c (List.mem_cons_self c l1x)
    have hrec := ih l2 (fun x hx => h1 x (List.mem_cons_of_mem c hx)) h2
    constructor
    · rw [List.cons_append, List.takeWhile]
      simp [hc, hrec.1]
    · rw [List.cons_append, List.dropWhile]
      simp [hc, hrec.2]

/-- `formatC` on a signed `%c` match consumes the maximal digit run and
substitutes the character at the signed offset. -/
theorem formatC_signed (doc : List Nat) (so : Nat) (s : Nat)
    (digits post : List Nat) (hs : s = 45 ∨ s = 43) (hne : digits ≠ [])
    (hdig : ∀ d ∈ digits, isDigit d = true)
    (hpost : ∀ d, post.head? = some d → isDigit d = false) :
    formatC doc so (37 :: 99 :: s :: (digits ++ post)) =
      csub doc so ((digitsVal digits : Int) * (if s = 45 then -1 else 1)) ++
        formatC doc so post := by
  have htd := takeWhile_append_all digits post hdig hpost
  rw [formatC.eq_4, if_pos rfl, if_pos rfl, htd.1, htd.2, if_pos ⟨hs, hne⟩]

/-- Unfolding of `hasPC` on a nonempty list. -/
theorem hasPC_cons (c : Nat) (rest : List Nat) :
    hasPC (c :: rest) =
      if c = 37 ∧ rest.head? = some 99 then true else hasPC rest := by
  rw [hasPC.eq_def]

/-- Text without a `%c` occurrence passes through `formatC` unchanged. -/
theorem formatC_id (doc : List Nat) (so : Nat) :
    ∀ t, hasPC t = false → formatC doc so t = t := by
  intro t
  induction t with
  | nil => intro _; exact formatC.eq_1 doc so
  | cons c rest ih =>
    intro h
    rw [hasPC_cons] at h
    split at h
    · exact absurd h (by simp)
    · next hno =>
      rw [formatC_cons_no doc so c rest hno, ih h]

/-- `formatC` commutes with prepending match-free text when the remainder
starts with `%`. -/
theorem formatC_prepend (doc : List Nat) (so : Nat) (rest : List Nat)
    (hr : rest.head? = some 37) :
    ∀ pre, hasPC pre = false →
      formatC doc so (pre ++ rest) = pre ++ formatC doc so rest := by
  intro pre
  induction pre with
  | nil => intro _; rfl
  | cons c pre2 ih =>
    intro h
    rw [hasPC_cons] at h
    split at h
    · exact absurd h (by simp)
    · next hno =>
      have hcond : ¬(c = 37 ∧ (pre2 ++ rest).head? = some 99) := by
        cases pre2 with
        | nil =>
          simp only [List.nil_append]
          intro hcontra
          rw [hr] at hcontra
          exact absurd hcontra.2 (by simp)
        | cons p pre3 =>
          intro hcontra
          exact hno ⟨hcontra.1, by simpa using hcontra.2⟩
      rw [List.cons_append, formatC_cons_no doc so c (pre2 ++ rest) hcond, ih h]
      simp

/-- C5: each `%c` placeholder — optionally followed by a sign and a decimal
digit run — is replaced by the source character at
`startOffset + signedOffset` (0 when bare), with a backtick rendered as the
three-token escape sequence (both cases are `csub`); text without a
placeholder passes through unchanged. -/
theorem formatC_placeholder (doc : List Nat) (so : Nat)
    (t pre post digits : List Nat) (s : Nat) :
    (hasPC t = false → formatC doc so t = t) ∧
    (hasPC pre = false → signDigit post = false →
      formatC doc so (pre ++ 37 :: 99 :: post) =
        pre ++ csub doc so 0 ++ formatC doc so post) ∧
    (hasPC pre = false → (s = 45 ∨ s = 43) → digits ≠ [] →
      (∀ d ∈ digits, isDigit d = true) →
      (∀ d, post.head? = some d → isDigit d = false) →
      formatC doc so (pre ++ 37 :: 99 :: s :: (digits ++ post)) =
        pre ++ csub doc so ((digitsVal digits : Int) * (if s = 45 then -1 else 1)) ++
          formatC doc so post) := by
  refine ⟨formatC_id doc so t, fun hpre hpost => ?_, fun hpre hs hne hdig hpost => ?_⟩
  · rw [formatC_prepend doc so (37 :: 99 :: post) rfl pre hpre,
      formatC_bare doc so post hpost]
    simp [List.append_assoc]
  · rw [formatC_prepend doc so (37 :: 99 :: s :: (digits ++ post)) rfl pre hpre,
      formatC_signed doc so s digits post hs hne hdig hpost]
    simp [List.append_assoc]

/-- Witness for C5: the template `"a%cb"` against the source `` "`x" ``,
whose character at offset 0 is a backtick. -/
theorem formatC_placeholder_w :
    hasPC (utf16 "a") = false ∧ signDigit (utf16 "b") = false ∧
    formatC (utf16 "`x") 0 (utf16 "a" ++ 37 :: 99 :: utf16 "b") =
      utf16 "a" ++ csub (utf16 "`x") 0 0 ++ formatC (utf16 "`x") 0 (utf16 "b") :=
  ⟨by decide, by decide,
   (formatC_placeholder (utf16 "`x") 0 [] (utf16 "a") (utf16 "b") [] 0).2.1
     (by decide) (by decide)⟩

end FromHtml
